import Mathlib

/-!
Verification development for the augmented-memory streaming attention
mechanism (fairseq/models/speech_to_text/modules/augmented_memory_attention.py).

Tensors are modelled as nested lists of real numbers, time-major as in the
source: a tensor of shape (time, batch, dim) is a list of time rows, each a
list of batch entries, each a feature vector.  Attention scores live in an
extended type with an explicit negative-infinity element, mirroring the
float("-inf") masking in the source; exp of negative infinity is 0, so
softmax over the extended scores matches IEEE semantics on the masked
entries.  A softmax row whose denominator is zero corresponds to the NaN
rows of the source; it is represented by none before the NaN sanitization
step.  Dropout modules are modelled in evaluation mode (identity), as all
claims concern the deterministic data path.
-/

/-- Feature vector: a list of reals. -/
abbrev Vec := List ℝ

/-- Matrix as a list of rows. -/
abbrev Mat := List Vec

/-- Tensor of shape (time, batch, dim). -/
abbrev T3 := List (List Vec)

/-- Dot product of two vectors (zipWith truncates to the common length). -/
def dotProd (u v : Vec) : ℝ := (List.zipWith (· * ·) u v).sum

/-- Vector addition. -/
def addVec (u v : Vec) : Vec := List.zipWith (· + ·) u v

/-- Matrix-vector product. -/
def matVec (W : Mat) (x : Vec) : Vec := W.map (fun r => dotProd r x)

/-- Affine map W x + b, as computed by a torch linear module. -/
def affine (W : Mat) (b : Vec) (x : Vec) : Vec := addVec (matVec W x) b

/-- Apply a linear projection to every vector of a (time, batch, dim) tensor. -/
def proj3 (W : Mat) (b : Vec) (x : T3) : T3 :=
  x.map (fun tb => tb.map (affine W b))

/-- Attention score: a real value or negative infinity (float("-inf")). -/
inductive EScore where
  | ninf : EScore
  | val : ℝ → EScore

/-- Extended exponential: exp of negative infinity is 0. -/
noncomputable def expExt : EScore → ℝ
  | .ninf => 0
  | .val r => Real.exp r

/-- Denominator of the softmax over one key row. -/
noncomputable def softmaxDenom (row : List EScore) : ℝ := (row.map expExt).sum

/-- Softmax over one key row.  A zero denominator (all entries masked)
yields NaN in the source; such entries are represented by none. -/
noncomputable def softmaxRowRaw (row : List EScore) : List (Option ℝ) :=
  if softmaxDenom row = 0 then row.map (fun _ => none)
  else row.map (fun s => some (expExt s / softmaxDenom row))

/-- NaN sanitization: masked_fill of the NaN entries with 0. -/
def sanitizeRow (r : List (Option ℝ)) : List ℝ := r.map (fun o => o.getD 0)

/-- The softmax probability an entry of a row receives, with -inf entries
receiving 0 (used to state the suppression filter, mirroring
torch.nn.functional.softmax on the float scores). -/
noncomputable def probOf (row : List EScore) (s : EScore) : ℝ :=
  expExt s / softmaxDenom row

/-- Number of strictly nonzero softmax probabilities of a row
(attention_prob.to(torch.bool) summed in the source). -/
noncomputable def nonzeroCount (row : List EScore) : ℕ :=
  ((row.map (probOf row)).filter (fun q => q ≠ 0)).length

/-- Per-row mean of the softmax probabilities, epsilon-guarded as in the
source: key_sum / (nozeros_sum + 1e-8). -/
noncomputable def keyMean (row : List EScore) : ℝ :=
  (row.map (probOf row)).sum / (nonzeroCount row + 1e-8)

/-- Per-row variance over the nonzero probabilities:
sum of (p - mean)^2 over nonzero entries, divided by (n - 1 + 1e-8). -/
noncomputable def keyVar (row : List EScore) : ℝ :=
  ((row.map (probOf row)).map
      (fun p => if p ≠ 0 then (p - keyMean row) * (p - keyMean row) else 0)).sum
    / (nonzeroCount row - 1 + 1e-8)

/-- Suppression threshold: mean - scale * sqrt(var). -/
noncomputable def keyThread (scale : ℝ) (row : List EScore) : ℝ :=
  keyMean row - scale * Real.sqrt (keyVar row)

/-- Attention suppression on one key row.  When the softmax denominator is
zero every probability is NaN in the source, every comparison with the
threshold is false and torch.where keeps the original scores; this is the
first branch.  Otherwise an entry is replaced by negative infinity exactly
when its probability is strictly below the threshold. -/
noncomputable def suppressRow (scale : ℝ) (row : List EScore) : List EScore :=
  if softmaxDenom row = 0 then row
  else row.map (fun s => if probOf row s < keyThread scale row then .ninf else s)

/-- attention_suppression applied to a (batch*heads, qlen, klen) score
tensor: each query row is filtered independently. -/
noncomputable def attention_suppression (w : List (List (List EScore))) (scale : ℝ) :
    List (List (List EScore)) :=
  w.map (fun mtx => mtx.map (suppressRow scale))

/-- Lift a real tensor to extended scores. -/
def toES (w : List (List (List ℝ))) : List (List (List EScore)) :=
  w.map (fun mtx => mtx.map (fun row => row.map EScore.val))

/-- Entry lookup in a triply nested list, as an Option. -/
def ent3 (w : List (List (List α))) (i t j : ℕ) : Option α :=
  ((w.getD i []).getD t [])[j]?

/-- Slice of a concatenated-heads vector belonging to head h (head_dim D). -/
def headSlice (D h : ℕ) (v : Vec) : Vec := (v.drop (h * D)).take D

/-- Reshape a (time, batch, heads*head_dim) tensor to
(batch*heads, time, head_dim), as done by view followed by transpose(0, 1)
on a contiguous tensor: index bh corresponds to batch bh / H, head bh % H. -/
def reshapeHeads (B H D : ℕ) (x : T3) : List (List Vec) :=
  (List.range (B * H)).map (fun bh =>
    x.map (fun tb => headSlice D (bh % H) ((tb.getD (bh / H) []))))

/-- Multiply every entry of a (batch*heads, time, head_dim) tensor by c. -/
def scaleT (c : ℝ) (q : List (List Vec)) : List (List Vec) :=
  q.map (fun mtx => mtx.map (fun v => v.map (fun r => c * r)))

/-- Batched q k^T: score[bh][t][s] is the dot product of query t and key s. -/
def bmmScores (q k : List (List Vec)) : List (List (List ℝ)) :=
  List.zipWith (fun qm km => qm.map (fun qr => km.map (fun kr => dotProd qr kr))) q k

/-- Set the memory-bank columns of the summary (last) query row to negative
infinity, leaving every other row untouched. -/
def maskSummaryRow (m : ℕ) (mtx : List (List EScore)) : List (List EScore) :=
  mtx.mapIdx (fun t row =>
    if t + 1 = mtx.length then
      row.mapIdx (fun j v => if j < m then .ninf else v)
    else row)

/-- Memory-on-memory mask across all batch*heads score matrices. -/
def memOnMemMask (m : ℕ) (w : List (List (List EScore))) : List (List (List EScore)) :=
  w.map (maskSummaryRow m)

/-- Key padding mask expanded with m leading zeros for the memory-bank
columns, looked up for batch b at key column j. -/
def expandedMaskAt (m : ℕ) (mask : List (List Bool)) (b j : ℕ) : Bool :=
  if j < m then false else ((mask.getD b []).getD (j - m) false)

/-- masked_fill of the score tensor with the expanded key padding mask,
broadcast over heads and query rows (batch of bh is bh / H). -/
def applyPaddingMask (H m : ℕ) (mask : List (List Bool)) (w : List (List (List EScore))) :
    List (List (List EScore)) :=
  w.mapIdx (fun bh mtx => mtx.map (fun row =>
    row.mapIdx (fun j v => if expandedMaskAt m mask (bh / H) j then .ninf else v)))

/-- The key padding mask step of forward: applied only when a mask is given
and it has at least one true entry. -/
def maybePad (H m : ℕ) (kpm : Option (List (List Bool))) (w : List (List (List EScore))) :
    List (List (List EScore)) :=
  match kpm with
  | none => w
  | some mask => if mask.any (fun r => r.any id) then applyPaddingMask H m mask w else w

/-- Softmax each score row and sanitize the NaN rows to zeros. -/
noncomputable def attnProbs (w : List (List (List EScore))) : List (List (List ℝ)) :=
  w.map (fun mtx => mtx.map (fun row => sanitizeRow (softmaxRowRaw row)))

/-- Probability-weighted sum of the value vectors (one output row of bmm of
the probabilities with the values); D is the head dimension. -/
def weightedSum (D : ℕ) (ps : List ℝ) (vs : List Vec) : Vec :=
  (List.zipWith (fun a v => v.map (fun x => a * x)) ps vs).foldr addVec
    (List.replicate D 0)

/-- Batched bmm of attention probabilities with values. -/
def bmmAV (D : ℕ) (probs : List (List (List ℝ))) (v : List (List Vec)) :
    List (List Vec) :=
  List.zipWith (fun pm vm => pm.map (fun prow => weightedSum D prow vm)) probs v

/-- Merge the (batch*heads, time, head_dim) aggregate back into a
(time, batch, heads*head_dim) tensor (transpose then contiguous view). -/
def mergeHeads (B H L1 : ℕ) (att : List (List Vec)) : T3 :=
  (List.range L1).map (fun t => (List.range B).map (fun b =>
    ((List.range H).map (fun h => ((att.getD (b * H + h) []).getD t []))).flatten))

/-- Squashing applied to the new memory vector: tanh when tanh_on_mem,
identity otherwise. -/
noncomputable def squashFn (tanhOnMem : Bool) : ℝ → ℝ :=
  if tanhOnMem then Real.tanh else id

/-- Configuration and weights of AugmentedMemoryMultiheadAttention. -/
structure AMAttnParams where
  num_heads : ℕ
  head_dim : ℕ
  Wq : Mat
  bq : Vec
  Wk : Mat
  bk : Vec
  Wv : Mat
  bv : Vec
  Wo : Mat
  bo : Vec
  tanh_on_mem : Bool
  std_scale : Option ℝ
  max_memory_size : ℤ
  disable_mem_on_mem_attn : Bool

/-- Scaling factor of the base attention class: head_dim ** -0.5. -/
noncomputable def scalingOf (p : AMAttnParams) : ℝ := (Real.sqrt p.head_dim)⁻¹

/-- Batch size read from the shape of the input tensor. -/
def batchOf (x : T3) : ℕ := (x.getD 0 []).length

/-- The memory banks actually used as key/value source in one forward call:
the stored list, trimmed to the last max_memory_size entries when a
nonnegative maximum is configured and the list exceeds it (cleared when the
maximum is zero).  This trimming rebinds a local in the source and never
mutates the state. -/
def usedBanks (maxSize : ℤ) (banks : List T3) : List T3 :=
  if maxSize > -1 ∧ (banks.length : ℤ) > maxSize then
    if maxSize = 0 then [] else banks.drop (banks.length - maxSize.toNat)
  else banks

/-- Key/value source: retained memory banks concatenated (along time) with
the non-summary rows of the input. -/
def kvSource (p : AMAttnParams) (x : T3) (banks : List T3) : T3 :=
  (usedBanks p.max_memory_size banks).flatten ++ x.dropLast

/-- Raw attention scores of forward: projected, head-split, scaled queries
against projected, head-split keys. -/
noncomputable def rawScores (p : AMAttnParams) (x : T3) (banks : List T3) :
    List (List (List ℝ)) :=
  let B := batchOf x
  let q := scaleT (scalingOf p) (reshapeHeads B p.num_heads p.head_dim (proj3 p.Wq p.bq x))
  let k := reshapeHeads B p.num_heads p.head_dim (proj3 p.Wk p.bk (kvSource p x banks))
  bmmScores q k

/-- Scores after the memory-on-memory mask, the suppression filter and the
key padding mask, in source order. -/
noncomputable def maskedScores (p : AMAttnParams) (x : T3) (banks : List T3)
    (kpm : Option (List (List Bool))) : List (List (List EScore)) :=
  let m := (usedBanks p.max_memory_size banks).length
  let w0 := toES (rawScores p x banks)
  let w1 := if p.disable_mem_on_mem_attn then memOnMemMask m w0 else w0
  let w2 := match p.std_scale with
    | none => w1
    | some s => attention_suppression w1 s
  maybePad p.num_heads m kpm w2

/-- Post-softmax, NaN-sanitized attention probabilities of forward. -/
noncomputable def forwardProbs (p : AMAttnParams) (x : T3) (banks : List T3)
    (kpm : Option (List (List Bool))) : List (List (List ℝ)) :=
  attnProbs (maskedScores p x banks kpm)

/-- The new memory vector: the last output row, squashed. -/
noncomputable def nextMem (p : AMAttnParams) (outm : T3) : T3 :=
  [((outm.getD (outm.length - 1) []).map (fun v => v.map (squashFn p.tanh_on_mem)))]

/-- AugmentedMemoryMultiheadAttention.forward: returns the segment output
(all rows but the last) and the updated stored memory-bank list.  The
append at the end of the source targets the original state list, not the
trimmed local copy. -/
noncomputable def forwardAttn (p : AMAttnParams) (x : T3) (banks : List T3)
    (kpm : Option (List (List Bool))) : T3 × List T3 :=
  let B := batchOf x
  let v := reshapeHeads B p.num_heads p.head_dim (proj3 p.Wv p.bv (kvSource p x banks))
  let att := bmmAV p.head_dim (forwardProbs p x banks kpm) v
  let merged := mergeHeads B p.num_heads x.length att
  let outm := proj3 p.Wo p.bo merged
  (outm.dropLast, banks ++ [nextMem p outm])

/-- Stored memory banks after k successive forward calls on the same layer
state, starting from an empty bank, feeding the same input each call. -/
noncomputable def iterForwardBanks (p : AMAttnParams) (x : T3)
    (kpm : Option (List (List Bool))) : ℕ → List T3
  | 0 => []
  | k + 1 => (forwardAttn p x (iterForwardBanks p x kpm k) kpm).2

/-- Concrete single-head, dimension-one parameter set used by witnesses. -/
def exP : AMAttnParams :=
  { num_heads := 1, head_dim := 1,
    Wq := [[1]], bq := [0], Wk := [[1]], bk := [0],
    Wv := [[1]], bv := [0], Wo := [[1]], bo := [0],
    tanh_on_mem := true, std_scale := none,
    max_memory_size := -1, disable_mem_on_mem_attn := true }

lemma forwardAttn_snd (p : AMAttnParams) (x : T3) (banks : List T3)
    (kpm : Option (List (List Bool))) :
    ∃ nm : T3, (forwardAttn p x banks kpm).2 = banks ++ [nm] := by
  exact ⟨_, rfl⟩

/-- Support lemma: after k forward calls on the same state starting from an empty
memory bank, the stored memory-bank list has length k, whatever the
configured max_memory_size.  The eviction logic in the source only rebinds
a local variable; the append at the end targets the untrimmed state list,
so the stored length is k rather than min k N. -/
theorem iterForwardBanks_length (p : AMAttnParams) (x : T3)
    (kpm : Option (List (List Bool))) (k : ℕ) :
    (iterForwardBanks p x kpm k).length = k := by
  induction k with
  | zero => rfl
  | succ n ih => simp [iterForwardBanks, forwardAttn, ih]

/-- C1, evaluated at the failing input: with max_memory_size 0 a single
call on an empty bank leaves a stored bank of length 1, while the claim
demands min 1 0 = 0. -/
theorem C1_failing_eval :
    ({ exP with max_memory_size := 0 } : AMAttnParams).max_memory_size = 0 ∧
      (iterForwardBanks { exP with max_memory_size := 0 } [[[1]]] none 1).length = 1 ∧
      (iterForwardBanks { exP with max_memory_size := 0 } [[[1]]] none 1).length ≠
        min 1 0 := by
  refine ⟨rfl, iterForwardBanks_length _ _ _ 1, ?_⟩
  rw [iterForwardBanks_length _ _ _ 1]
  decide

lemma maybePad_allFalse (H m : ℕ) (mask : List (List Bool))
    (w : List (List (List EScore))) (h : ∀ r ∈ mask, ∀ b ∈ r, b = false) :
    maybePad H m (some mask) w = w := by
  have hany : mask.any (fun r => r.any id) = false := by
    simp only [List.any_eq_false]
    intro r hr
    simp only [List.any_eq_true, id, not_exists, not_and]
    intro b hb
    simp [h r hr b hb]
  simp [maybePad, hany]

/-- C10: an all-false key padding mask behaves exactly like an absent one:
the returned output and the state mutation coincide. -/
theorem C10_allFalse_mask_like_none (p : AMAttnParams) (x : T3) (banks : List T3)
    (mask : List (List Bool)) (h : ∀ r ∈ mask, ∀ b ∈ r, b = false) :
    forwardAttn p x banks (some mask) = forwardAttn p x banks none := by
  have h2 : maskedScores p x banks (some mask) = maskedScores p x banks none := by
    simp only [maskedScores]
    rw [maybePad_allFalse _ _ _ _ h]
    rfl
  simp only [forwardAttn, forwardProbs, h2]

/-- C10 witness at a concrete all-false mask. -/
theorem C10_witness :
    forwardAttn exP [[[1]], [[2]]] [] (some [[false, false]]) =
      forwardAttn exP [[[1]], [[2]]] [] none := by
  exact C10_allFalse_mask_like_none exP [[[1]], [[2]]] [] [[false, false]]
    (by decide)

lemma affine_length (W : Mat) (b : Vec) (u : Vec) :
    (affine W b u).length = min W.length b.length := by
  simp [affine, addVec, matVec]

lemma getD_map_of_lt (f : α → β) (l : List α) (i : ℕ) (hi : i < l.length)
    (d : β) (d' : α) : (l.map f).getD i d = f (l.getD i d') := by
  rw [List.getD_eq_getElem?_getD, List.getD_eq_getElem?_getD,
    List.getElem?_map, List.getElem?_eq_getElem hi]
  rfl

lemma mergeHeads_length (B H L1 : ℕ) (att : List (List Vec)) :
    (mergeHeads B H L1 att).length = L1 := by
  simp [mergeHeads]

lemma mergeHeads_getD (B H L1 : ℕ) (att : List (List Vec)) (t : ℕ) (ht : t < L1) :
    (mergeHeads B H L1 att).getD t [] =
      (List.range B).map (fun b =>
        ((List.range H).map (fun h => ((att.getD (b * H + h) []).getD t []))).flatten) := by
  unfold mergeHeads
  rw [getD_map_of_lt _ _ t (by simpa using ht) [] 0]
  rw [List.getD_eq_getElem?_getD, List.getElem?_range ht]
  rfl

lemma nextMem_shape (p : AMAttnParams) (B H L1 : ℕ) (att : List (List Vec))
    (hL1 : 0 < L1) (hWo : p.Wo.length = p.num_heads * p.head_dim)
    (hbo : p.bo.length = p.num_heads * p.head_dim) :
    ∀ row ∈ nextMem p (proj3 p.Wo p.bo (mergeHeads B H L1 att)),
      row.length = B ∧ ∀ v ∈ row, v.length = p.num_heads * p.head_dim := by
  intro row hrow
  have hml : (mergeHeads B H L1 att).length = L1 := mergeHeads_length _ _ _ _
  have hpl : (proj3 p.Wo p.bo (mergeHeads B H L1 att)).length = L1 := by
    simp [proj3, hml]
  have hidx : L1 - 1 < (mergeHeads B H L1 att).length := by omega
  simp only [nextMem, hpl, List.mem_singleton] at hrow
  subst hrow
  have hlast : (proj3 p.Wo p.bo (mergeHeads B H L1 att)).getD (L1 - 1) [] =
      ((mergeHeads B H L1 att).getD (L1 - 1) []).map (affine p.Wo p.bo) := by
    unfold proj3
    exact getD_map_of_lt _ _ _ hidx [] []
  have hrowm := mergeHeads_getD B H L1 att (L1 - 1) (by omega)
  constructor
  · rw [List.length_map, hlast, List.length_map, hrowm, List.length_map,
      List.length_range]
  · intro v hv
    rw [hlast] at hv
    simp only [List.map_map, List.mem_map] at hv
    obtain ⟨u, _, hu⟩ := hv
    rw [← hu]
    simp only [Function.comp_apply, List.length_map, affine_length, hWo, hbo,
      Nat.min_self]

/-- C5: each forward call appends exactly one new vector to the stored
memory-bank list, of shape (1, batch, embed_dim), regardless of the segment
length. -/
theorem C5_appends_one_memory_vector (p : AMAttnParams) (x : T3)
    (banks : List T3) (kpm : Option (List (List Bool))) (hx : x ≠ [])
    (hWo : p.Wo.length = p.num_heads * p.head_dim)
    (hbo : p.bo.length = p.num_heads * p.head_dim) :
    ∃ nm : T3, (forwardAttn p x banks kpm).2 = banks ++ [nm] ∧ nm.length = 1 ∧
      ∀ row ∈ nm, row.length = batchOf x ∧
        ∀ v ∈ row, v.length = p.num_heads * p.head_dim := by
  refine ⟨_, rfl, rfl, ?_⟩
  have hL1 : 0 < x.length := List.length_pos.mpr hx
  exact nextMem_shape p (batchOf x) p.num_heads x.length _ hL1 hWo hbo

/-- C5 witness at a concrete one-frame input. -/
theorem C5_witness :
    ∃ nm : T3, (forwardAttn exP [[[1]]] [] none).2 = [] ++ [nm] ∧ nm.length = 1 ∧
      ∀ row ∈ nm, row.length = batchOf [[[1]]] ∧
        ∀ v ∈ row, v.length = exP.num_heads * exP.head_dim := by
  exact C5_appends_one_memory_vector exP [[[1]]] [] none (by simp) rfl rfl

lemma suppressRow_nil (scale : ℝ) : suppressRow scale [] = [] := by
  simp [suppressRow, softmaxDenom]

lemma getD_map_nil {α β : Type} {f : List α → List β} (hf : f [] = [])
    (l : List (List α)) (i : ℕ) : (l.map f).getD i [] = f (l.getD i []) := by
  rcases Nat.lt_or_ge i l.length with h | h
  · exact getD_map_of_lt f l i h [] []
  · rw [List.getD_eq_getElem?_getD, List.getD_eq_getElem?_getD,
      List.getElem?_map, List.getElem?_eq_none (by simpa using h)]
    simp [hf]

lemma getD2_suppr (w : List (List (List EScore))) (scale : ℝ) (i t : ℕ) :
    ((attention_suppression w scale).getD i []).getD t [] =
      suppressRow scale ((w.getD i []).getD t []) := by
  unfold attention_suppression
  rw [getD_map_nil rfl, getD_map_nil (suppressRow_nil scale)]

lemma ent3_suppr (w : List (List (List EScore))) (scale : ℝ) (i t j : ℕ) :
    ent3 (attention_suppression w scale) i t j =
      (suppressRow scale ((w.getD i []).getD t []))[j]? := by
  unfold ent3
  rw [getD2_suppr]

lemma suppressRow_ninf (scale : ℝ) (row : List EScore) (j : ℕ)
    (h : row[j]? = some .ninf) :
    (suppressRow scale row)[j]? = some .ninf := by
  unfold suppressRow
  split
  · exact h
  · rw [List.getElem?_map, h, Option.map_some']
    simp [probOf, expExt]

/-- C6: a score entry that is negative infinity after one application of
attention_suppression stays negative infinity after a second application
with the same scale; filtering twice never reinstates a suppressed entry. -/
theorem C6_suppression_keeps_ninf (w : List (List (List EScore))) (scale : ℝ)
    (i t j : ℕ)
    (h : ent3 (attention_suppression w scale) i t j = some .ninf) :
    ent3 (attention_suppression (attention_suppression w scale) scale) i t j =
      some .ninf := by
  rw [ent3_suppr, getD2_suppr]
  rw [ent3_suppr] at h
  exact suppressRow_ninf _ _ j h

/-- C6 witness: a concrete entry suppressed once stays suppressed. -/
theorem C6_witness :
    ent3 (attention_suppression [[[EScore.ninf, EScore.val 0]]] (1/2)) 0 0 0 =
        some .ninf ∧
      ent3 (attention_suppression
        (attention_suppression [[[EScore.ninf, EScore.val 0]]] (1/2)) (1/2)) 0 0 0 =
        some .ninf := by
  have h : ent3 (attention_suppression [[[EScore.ninf, EScore.val 0]]] (1/2)) 0 0 0 =
      some .ninf := by
    rw [ent3_suppr]
    exact suppressRow_ninf _ _ 0 rfl
  exact ⟨h, C6_suppression_keeps_ninf _ _ _ _ _ h⟩

/-- Modelled from the claim wording: softmax probabilities of a raw real
score row. -/
noncomputable def specProbs (row : List ℝ) : List ℝ :=
  row.map (fun r => Real.exp r / (row.map Real.exp).sum)

/-- Modelled from the claim wording: number of strictly nonzero softmax
probabilities. -/
noncomputable def specNonzero (row : List ℝ) : ℕ :=
  ((specProbs row).filter (fun q => q ≠ 0)).length

/-- Modelled from the claim wording: mean = sum p / (nonzero_count + 1e-8). -/
noncomputable def specMean (row : List ℝ) : ℝ :=
  (specProbs row).sum / (specNonzero row + 1e-8)

/-- Modelled from the claim wording: variance over nonzero entries with
zero entries contributing zero, divided by (nonzero_count - 1 + 1e-8). -/
noncomputable def specVar (row : List ℝ) : ℝ :=
  ((specProbs row).map
      (fun q => if q ≠ 0 then (q - specMean row) ^ 2 else 0)).sum
    / (specNonzero row - 1 + 1e-8)

/-- Modelled from the claim wording: threshold = mean - s * sqrt var. -/
noncomputable def specThreshold (s : ℝ) (row : List ℝ) : ℝ :=
  specMean row - s * Real.sqrt (specVar row)

lemma map_expExt_val (row : List ℝ) :
    (row.map EScore.val).map expExt = row.map Real.exp := by
  rw [List.map_map]
  rfl

lemma softmaxDenom_val (row : List ℝ) :
    softmaxDenom (row.map EScore.val) = (row.map Real.exp).sum := by
  unfold softmaxDenom
  rw [map_expExt_val]

lemma probOf_val (row : List ℝ) (r : ℝ) :
    probOf (row.map EScore.val) (.val r) = Real.exp r / (row.map Real.exp).sum := by
  unfold probOf
  rw [softmaxDenom_val]
  rfl

lemma probs_val (row : List ℝ) :
    (row.map EScore.val).map (probOf (row.map EScore.val)) = specProbs row := by
  unfold specProbs
  rw [List.map_map]
  have h : probOf (row.map EScore.val) ∘ EScore.val =
      fun r => Real.exp r / (row.map Real.exp).sum := by
    funext r
    exact probOf_val row r
  rw [h]

lemma nonzeroCount_val (row : List ℝ) :
    nonzeroCount (row.map EScore.val) = specNonzero row := by
  unfold nonzeroCount specNonzero
  rw [probs_val]

lemma keyMean_val (row : List ℝ) :
    keyMean (row.map EScore.val) = specMean row := by
  unfold keyMean specMean
  rw [probs_val, nonzeroCount_val]

lemma keyVar_val (row : List ℝ) :
    keyVar (row.map EScore.val) = specVar row := by
  unfold keyVar specVar
  rw [probs_val, nonzeroCount_val, keyMean_val]
  simp only [pow_two]

lemma keyThread_val (s : ℝ) (row : List ℝ) :
    keyThread s (row.map EScore.val) = specThreshold s row := by
  unfold keyThread specThreshold
  rw [keyMean_val, keyVar_val]

lemma sum_exp_pos (row : List ℝ) (h : row ≠ []) : 0 < (row.map Real.exp).sum := by
  cases row with
  | nil => exact absurd rfl h
  | cons a l =>
    simp only [List.map_cons, List.sum_cons]
    have h1 : 0 < Real.exp a := Real.exp_pos a
    have h2 : 0 ≤ (l.map Real.exp).sum := by
      apply List.sum_nonneg
      intro x hx
      obtain ⟨y, _, hy⟩ := List.mem_map.mp hx
      rw [← hy]
      exact (Real.exp_pos y).le
    linarith

lemma getD2_toES (S : List (List (List ℝ))) (i t : ℕ) :
    ((toES S).getD i []).getD t [] = ((S.getD i []).getD t []).map EScore.val := by
  unfold toES
  rw [getD_map_nil rfl, getD_map_nil rfl]

lemma suppressRow_length (scale : ℝ) (row : List EScore) :
    (suppressRow scale row).length = row.length := by
  unfold suppressRow
  split
  · rfl
  · rw [List.length_map]

/-- C2: attention_suppression on a raw real score tensor preserves the
shape, and per query row, with p the softmax probabilities, nonzero count,
epsilon-guarded mean, variance over nonzero entries and threshold
mean - s * sqrt var as in the claim, an entry is negative infinity in the
result exactly when its probability is strictly below the threshold, and
otherwise equals the original score unchanged. -/
theorem C2_suppression_matches_formulas (S : List (List (List ℝ))) (s : ℝ)
    (i t j : ℕ) (hj : j < ((S.getD i []).getD t []).length) :
    (attention_suppression (toES S) s).length = S.length ∧
    (∀ a : ℕ, ((attention_suppression (toES S) s).getD a []).length =
      (S.getD a []).length) ∧
    (∀ a b : ℕ, (((attention_suppression (toES S) s).getD a []).getD b []).length =
      ((S.getD a []).getD b []).length) ∧
    ent3 (attention_suppression (toES S) s) i t j =
      some (if Real.exp (((S.getD i []).getD t []).getD j 0) /
          ((((S.getD i []).getD t []).map Real.exp).sum) <
          specThreshold s ((S.getD i []).getD t [])
        then EScore.ninf
        else EScore.val (((S.getD i []).getD t []).getD j 0)) := by
  refine ⟨by simp [attention_suppression, toES], ?_, ?_, ?_⟩
  · intro a
    unfold attention_suppression
    rw [getD_map_nil rfl, List.length_map]
    unfold toES
    rw [getD_map_nil rfl, List.length_map]
  · intro a b
    rw [getD2_suppr, suppressRow_length, getD2_toES, List.length_map]
  · rw [ent3_suppr, getD2_toES]
    set row := (S.getD i []).getD t [] with hrow
    have hne : row ≠ [] := by
      intro hcon
      rw [hcon] at hj
      exact absurd hj (by simp)
    have hd : ¬ softmaxDenom (row.map EScore.val) = 0 := by
      rw [softmaxDenom_val]
      exact ne_of_gt (sum_exp_pos row hne)
    unfold suppressRow
    rw [if_neg hd, List.getElem?_map, List.getElem?_map,
      List.getElem?_eq_getElem hj, Option.map_some', Option.map_some',
      probOf_val, keyThread_val, List.getD_eq_getElem?_getD,
      List.getElem?_eq_getElem hj]
    rfl

/-- Concrete real score tensor used by the C2 witness. -/
def exS : List (List (List ℝ)) := [[[0, 1]]]

/-- C2 witness at a concrete two-key score row. -/
theorem C2_witness :
    (attention_suppression (toES exS) (1/2)).length = exS.length ∧
    (∀ a : ℕ, ((attention_suppression (toES exS) (1/2)).getD a []).length =
      (exS.getD a []).length) ∧
    (∀ a b : ℕ,
      (((attention_suppression (toES exS) (1/2)).getD a []).getD b []).length =
        ((exS.getD a []).getD b []).length) ∧
    ent3 (attention_suppression (toES exS) (1/2)) 0 0 0 =
      some (if Real.exp (((exS.getD 0 []).getD 0 []).getD 0 0) /
          ((((exS.getD 0 []).getD 0 []).map Real.exp).sum) <
          specThreshold (1/2) ((exS.getD 0 []).getD 0 [])
        then EScore.ninf
        else EScore.val (((exS.getD 0 []).getD 0 []).getD 0 0)) := by
  exact C2_suppression_matches_formulas exS (1/2) 0 0 0 (by norm_num [exS])

lemma getD_mapIdx_nil {α β : Type} {f : ℕ → List α → List β}
    (hf : ∀ i, f i [] = []) (l : List (List α)) (i : ℕ) :
    (l.mapIdx f).getD i [] = f i (l.getD i []) := by
  rw [List.getD_eq_getElem?_getD, List.getD_eq_getElem?_getD, List.getElem?_mapIdx]
  cases h : l[i]? with
  | none => simp [hf]
  | some a => rfl

lemma reshapeHeads_length (B H D : ℕ) (x : T3) :
    (reshapeHeads B H D x).length = B * H := by
  simp [reshapeHeads]

lemma reshapeHeads_getD (B H D : ℕ) (x : T3) (bh : ℕ) (h : bh < B * H) :
    (reshapeHeads B H D x).getD bh [] =
      x.map (fun tb => headSlice D (bh % H) (tb.getD (bh / H) [])) := by
  unfold reshapeHeads
  rw [List.getD_eq_getElem?_getD, List.getElem?_map, List.getElem?_range h]
  rfl

lemma scaleT_getD (c : ℝ) (q : List (List Vec)) (bh : ℕ) :
    (scaleT c q).getD bh [] =
      (q.getD bh []).map (fun v => v.map (fun r => c * r)) := by
  unfold scaleT
  exact getD_map_nil rfl q bh

lemma bmmScores_getD (q k : List (List Vec)) (bh : ℕ)
    (hq : bh < q.length) (hk : bh < k.length) :
    (bmmScores q k).getD bh [] =
      (q.getD bh []).map (fun qr => (k.getD bh []).map (fun kr => dotProd qr kr)) := by
  unfold bmmScores
  rw [List.getD_eq_getElem?_getD, List.getElem?_zipWith,
    List.getElem?_eq_getElem hq, List.getElem?_eq_getElem hk]
  simp [List.getD_eq_getElem?_getD, List.getElem?_eq_getElem hq,
    List.getElem?_eq_getElem hk]

lemma rawScores_length (p : AMAttnParams) (x : T3) (banks : List T3) :
    (rawScores p x banks).length = batchOf x * p.num_heads := by
  unfold rawScores bmmScores
  rw [List.length_zipWith]
  simp [scaleT, reshapeHeads_length]

lemma rawScores_getD (p : AMAttnParams) (x : T3) (banks : List T3) (bh : ℕ)
    (h : bh < batchOf x * p.num_heads) :
    (rawScores p x banks).getD bh [] =
      (((proj3 p.Wq p.bq x).map (fun tb =>
          headSlice p.head_dim (bh % p.num_heads) (tb.getD (bh / p.num_heads) []))).map
        (fun v => v.map (fun r => scalingOf p * r))).map
      (fun qr => ((proj3 p.Wk p.bk (kvSource p x banks)).map (fun tb =>
          headSlice p.head_dim (bh % p.num_heads) (tb.getD (bh / p.num_heads) []))).map
        (fun kr => dotProd qr kr)) := by
  unfold rawScores
  rw [bmmScores_getD _ _ bh
      (by simp [scaleT, reshapeHeads_length]; omega)
      (by rw [reshapeHeads_length]; omega),
    scaleT_getD, reshapeHeads_getD _ _ _ _ _ h, reshapeHeads_getD _ _ _ _ _ h]

lemma rawScores_mtx_length (p : AMAttnParams) (x : T3) (banks : List T3) (bh : ℕ)
    (h : bh < batchOf x * p.num_heads) :
    ((rawScores p x banks).getD bh []).length = x.length := by
  rw [rawScores_getD _ _ _ _ h]
  simp [proj3]

lemma rawScores_row_length (p : AMAttnParams) (x : T3) (banks : List T3)
    (bh t : ℕ) (hbh : bh < batchOf x * p.num_heads) (ht : t < x.length) :
    (((rawScores p x banks).getD bh []).getD t []).length =
      (kvSource p x banks).length := by
  rw [rawScores_getD _ _ _ _ hbh]
  rw [getD_map_of_lt _ _ t (by simp [proj3]; omega) [] []]
  simp [proj3]

lemma rawScores_entry (p : AMAttnParams) (x : T3) (banks : List T3)
    (bh t j : ℕ) (hbh : bh < batchOf x * p.num_heads) (ht : t < x.length)
    (hj : j < (kvSource p x banks).length) :
    ∃ r : ℝ, ent3 (rawScores p x banks) bh t j = some r := by
  have hlen := rawScores_row_length p x banks bh t hbh ht
  refine ⟨(((rawScores p x banks).getD bh []).getD t []).getD j 0, ?_⟩
  unfold ent3
  rw [List.getD_eq_getElem?_getD (((rawScores p x banks).getD bh []).getD t []),
    List.getElem?_eq_getElem (by omega)]
  rfl

lemma getD_maskSummaryRow (m : ℕ) (mtx : List (List EScore)) (t : ℕ) :
    (maskSummaryRow m mtx).getD t [] =
      if t + 1 = mtx.length then
        (mtx.getD t []).mapIdx (fun j v => if j < m then .ninf else v)
      else mtx.getD t [] := by
  unfold maskSummaryRow
  rw [getD_mapIdx_nil (fun i => by split <;> rfl)]

lemma getD2_memOnMem (m : ℕ) (w : List (List (List EScore))) (bh t : ℕ) :
    ((memOnMemMask m w).getD bh []).getD t [] =
      if t + 1 = (w.getD bh []).length then
        ((w.getD bh []).getD t []).mapIdx (fun j v => if j < m then .ninf else v)
      else (w.getD bh []).getD t [] := by
  unfold memOnMemMask
  rw [getD_map_nil rfl, getD_maskSummaryRow]

lemma getD2_applyPad (H m : ℕ) (mask : List (List Bool))
    (w : List (List (List EScore))) (bh t : ℕ) :
    ((applyPaddingMask H m mask w).getD bh []).getD t [] =
      ((w.getD bh []).getD t []).mapIdx
        (fun j v => if expandedMaskAt m mask (bh / H) j then .ninf else v) := by
  unfold applyPaddingMask
  rw [getD_mapIdx_nil (fun i => rfl), getD_map_nil rfl]

lemma getD2_length_memOnMem (m : ℕ) (w : List (List (List EScore))) (bh t : ℕ) :
    (((memOnMemMask m w).getD bh []).getD t []).length =
      ((w.getD bh []).getD t []).length := by
  rw [getD2_memOnMem]
  split <;> simp

lemma getD2_length_suppr (w : List (List (List EScore))) (s : ℝ) (bh t : ℕ) :
    (((attention_suppression w s).getD bh []).getD t []).length =
      ((w.getD bh []).getD t []).length := by
  rw [getD2_suppr, suppressRow_length]

lemma getD2_length_maybePad (H m : ℕ) (kpm : Option (List (List Bool)))
    (w : List (List (List EScore))) (bh t : ℕ) :
    (((maybePad H m kpm w).getD bh []).getD t []).length =
      ((w.getD bh []).getD t []).length := by
  unfold maybePad
  match kpm with
  | none => rfl
  | some mask =>
    dsimp only
    split
    · rw [getD2_applyPad, List.length_mapIdx]
    · rfl

/-- Row of the masked score tensor before the key padding step, written as
a function of the raw score row at query position t of L1 rows. -/
noncomputable def prePadRow (p : AMAttnParams) (m L1 : ℕ) (rowRaw : List ℝ)
    (t : ℕ) : List EScore :=
  let row0 := rowRaw.map EScore.val
  let row1 := if p.disable_mem_on_mem_attn ∧ t + 1 = L1 then
      row0.mapIdx (fun j v => if j < m then .ninf else v)
    else row0
  match p.std_scale with
  | none => row1
  | some s => suppressRow s row1

/-- Effect of the key padding step on one score row of head-batch bh. -/
def padRowFn (H m : ℕ) (kpm : Option (List (List Bool))) (bh : ℕ)
    (row : List EScore) : List EScore :=
  match kpm with
  | none => row
  | some mask =>
    if mask.any (fun r => r.any id) then
      row.mapIdx (fun j v => if expandedMaskAt m mask (bh / H) j then .ninf else v)
    else row

lemma getD2_maybePad (H m : ℕ) (kpm : Option (List (List Bool)))
    (w : List (List (List EScore))) (bh t : ℕ) :
    ((maybePad H m kpm w).getD bh []).getD t [] =
      padRowFn H m kpm bh ((w.getD bh []).getD t []) := by
  cases kpm with
  | none => rfl
  | some mask =>
    dsimp only [maybePad, padRowFn]
    split
    · exact getD2_applyPad H m mask w bh t
    · rfl

lemma getD2_maskedScores (p : AMAttnParams) (x : T3) (banks : List T3)
    (kpm : Option (List (List Bool))) (bh t : ℕ)
    (hbh : bh < batchOf x * p.num_heads) :
    ((maskedScores p x banks kpm).getD bh []).getD t [] =
      padRowFn p.num_heads (usedBanks p.max_memory_size banks).length kpm bh
        (prePadRow p (usedBanks p.max_memory_size banks).length x.length
          (((rawScores p x banks).getD bh []).getD t []) t) := by
  have hx0 : ((toES (rawScores p x banks)).getD bh []).getD t [] =
      (((rawScores p x banks).getD bh []).getD t []).map EScore.val :=
    getD2_toES _ _ _
  have hmtx : ((toES (rawScores p x banks)).getD bh []).length = x.length := by
    unfold toES
    rw [getD_map_nil rfl, List.length_map]
    exact rawScores_mtx_length p x banks bh hbh
  unfold maskedScores
  rw [getD2_maybePad]
  congr 1
  unfold prePadRow
  cases hstd : p.std_scale with
  | none =>
    dsimp only
    cases hds : p.disable_mem_on_mem_attn with
    | false => simp only [hds, Bool.false_eq_true, if_false, false_and, hx0]
    | true =>
      simp only [hds, if_true, true_and]
      rw [getD2_memOnMem, hmtx, hx0]
  | some s =>
    dsimp only
    cases hds : p.disable_mem_on_mem_attn with
    | false =>
      simp only [hds, Bool.false_eq_true, if_false, false_and]
      rw [getD2_suppr, hx0]
    | true =>
      simp only [hds, if_true, true_and]
      rw [getD2_suppr, getD2_memOnMem, hmtx, hx0]

lemma softmaxRowRaw_nil : softmaxRowRaw [] = [] := by
  unfold softmaxRowRaw
  split <;> rfl

lemma prePadRow_length (p : AMAttnParams) (m L1 : ℕ) (rowRaw : List ℝ) (t : ℕ) :
    (prePadRow p m L1 rowRaw t).length = rowRaw.length := by
  unfold prePadRow
  cases p.std_scale with
  | none =>
    dsimp only
    split <;> simp
  | some s =>
    dsimp only
    rw [suppressRow_length]
    split <;> simp

lemma padRowFn_length (H m : ℕ) (kpm : Option (List (List Bool))) (bh : ℕ)
    (row : List EScore) : (padRowFn H m kpm bh row).length = row.length := by
  unfold padRowFn
  cases kpm with
  | none => rfl
  | some mask =>
    dsimp only
    split
    · rw [List.length_mapIdx]
    · rfl

lemma padRowFn_ninf (H m : ℕ) (kpm : Option (List (List Bool))) (bh j : ℕ)
    (row : List EScore) (h : row[j]? = some .ninf) :
    (padRowFn H m kpm bh row)[j]? = some .ninf := by
  unfold padRowFn
  cases kpm with
  | none => exact h
  | some mask =>
    dsimp only
    split
    · rw [List.getElem?_mapIdx, h, Option.map_some']
      simp
    · exact h

lemma prePadRow_ninf (p : AMAttnParams) (m L1 : ℕ) (rowRaw : List ℝ) (t j : ℕ)
    (hds : p.disable_mem_on_mem_attn = true) (ht : t + 1 = L1) (hj : j < m)
    (hjlen : j < rowRaw.length) :
    (prePadRow p m L1 rowRaw t)[j]? = some .ninf := by
  have hrow1 : ((rowRaw.map EScore.val).mapIdx
      (fun j v => if j < m then EScore.ninf else v))[j]? = some .ninf := by
    rw [List.getElem?_mapIdx, List.getElem?_map,
      List.getElem?_eq_getElem hjlen]
    simp [hj]
  unfold prePadRow
  cases p.std_scale with
  | none =>
    dsimp only
    rw [if_pos ⟨by simp [hds], ht⟩]
    exact hrow1
  | some s =>
    dsimp only
    rw [if_pos ⟨by simp [hds], ht⟩]
    exact suppressRow_ninf s _ j hrow1

lemma expExt_nonneg (s : EScore) : 0 ≤ expExt s := by
  cases s with
  | ninf => exact le_refl 0
  | val r => exact (Real.exp_pos r).le

lemma softmaxDenom_nonneg (row : List EScore) : 0 ≤ softmaxDenom row := by
  apply List.sum_nonneg
  intro y hy
  obtain ⟨z, _, hz⟩ := List.mem_map.mp hy
  rw [← hz]
  exact expExt_nonneg z

lemma softmaxDenom_pos_of_val (row : List EScore) (r : ℝ)
    (h : EScore.val r ∈ row) : 0 < softmaxDenom row := by
  induction row with
  | nil => exact absurd h (List.not_mem_nil _)
  | cons a l ih =>
    unfold softmaxDenom
    simp only [List.map_cons, List.sum_cons]
    rcases List.mem_cons.mp h with h1 | h1
    · have h2 : 0 < expExt a := by rw [← h1]; exact Real.exp_pos r
      have h3 : 0 ≤ (l.map expExt).sum := softmaxDenom_nonneg l
      linarith
    · have h2 : 0 ≤ expExt a := expExt_nonneg a
      have h3 : 0 < softmaxDenom l := ih h1
      unfold softmaxDenom at h3
      linarith

lemma sanitize_softmax_entry (row : List EScore) (j : ℕ) (v : EScore)
    (hd : ¬ softmaxDenom row = 0) (h : row[j]? = some v) :
    (sanitizeRow (softmaxRowRaw row))[j]? = some (expExt v / softmaxDenom row) := by
  unfold softmaxRowRaw sanitizeRow
  rw [if_neg hd, List.map_map, List.getElem?_map, h]
  rfl

lemma getD2_attnProbs (w : List (List (List EScore))) (bh t : ℕ) :
    ((attnProbs w).getD bh []).getD t [] =
      sanitizeRow (softmaxRowRaw ((w.getD bh []).getD t [])) := by
  unfold attnProbs
  rw [getD_map_nil rfl, getD_map_nil (by rw [softmaxRowRaw_nil]; rfl)]

lemma usedBanks_subset (maxSize : ℤ) (banks : List T3) :
    ∀ b ∈ usedBanks maxSize banks, b ∈ banks := by
  intro b hb
  unfold usedBanks at hb
  split at hb
  · split at hb
    · exact absurd hb (List.not_mem_nil b)
    · exact (List.drop_subset _ banks) hb
  · exact hb

lemma kvSource_length (p : AMAttnParams) (x : T3) (banks : List T3)
    (hbank1 : ∀ bank ∈ banks, bank.length = 1) :
    (kvSource p x banks).length =
      (usedBanks p.max_memory_size banks).length + (x.length - 1) := by
  unfold kvSource
  rw [List.length_append, List.length_flatten, List.length_dropLast]
  congr 1
  have h : (usedBanks p.max_memory_size banks).map List.length =
      List.replicate ((usedBanks p.max_memory_size banks).map List.length).length 1 := by
    apply List.eq_replicate_of_mem
    intro a ha
    obtain ⟨bank, hbank, hlen⟩ := List.mem_map.mp ha
    rw [← hlen]
    exact hbank1 bank (usedBanks_subset _ _ bank hbank)
  rw [h, List.sum_replicate, smul_eq_mul, Nat.mul_one, List.length_map]

/-- C3: when disable_mem_on_mem_attn is enabled, the memory bank used for
keys and values is non-empty, and the summary (last) query row has at least
one non-memory key column whose masked score is finite, then the
post-softmax probability of the summary row over every memory-bank column
is exactly zero, for every batch-head index. -/
theorem C3_summary_never_attends_memory (p : AMAttnParams) (x : T3)
    (banks : List T3) (kpm : Option (List (List Bool)))
    (hds : p.disable_mem_on_mem_attn = true)
    (hbank1 : ∀ bank ∈ banks, bank.length = 1)
    (hm : 0 < (usedBanks p.max_memory_size banks).length) (hx : x ≠ [])
    (bh : ℕ) (hbh : bh < batchOf x * p.num_heads)
    (hex : ∃ j r, (usedBanks p.max_memory_size banks).length ≤ j ∧
      ent3 (maskedScores p x banks kpm) bh (x.length - 1) j =
        some (EScore.val r)) :
    ∀ j < (usedBanks p.max_memory_size banks).length,
      ent3 (forwardProbs p x banks kpm) bh (x.length - 1) j = some 0 := by
  intro j hj
  have hxpos : 0 < x.length := List.length_pos.mpr hx
  have ht1 : (x.length - 1) + 1 = x.length := by omega
  have hrowlen := rawScores_row_length p x banks bh (x.length - 1) hbh (by omega)
  have hkv := kvSource_length p x banks hbank1
  -- the final masked row
  have hrowF := getD2_maskedScores p x banks kpm bh (x.length - 1) hbh
  -- memory column of the final row is negative infinity
  have hfin : ent3 (maskedScores p x banks kpm) bh (x.length - 1) j =
      some .ninf := by
    show (((maskedScores p x banks kpm).getD bh []).getD (x.length - 1) [])[j]? =
      some EScore.ninf
    rw [hrowF]
    exact padRowFn_ninf _ _ _ _ _ _
      (prePadRow_ninf p _ x.length _ (x.length - 1) j hds ht1 hj (by omega))
  -- the final row has a strictly positive softmax denominator
  obtain ⟨j0, r, _, hent⟩ := hex
  have hval : EScore.val r ∈
      ((maskedScores p x banks kpm).getD bh []).getD (x.length - 1) [] :=
    List.getElem?_mem hent
  have hd : ¬ softmaxDenom
      (((maskedScores p x banks kpm).getD bh []).getD (x.length - 1) []) = 0 :=
    ne_of_gt (softmaxDenom_pos_of_val _ r hval)
  -- conclude: probability of the memory column is zero
  show (((forwardProbs p x banks kpm).getD bh []).getD (x.length - 1) [])[j]? =
    some 0
  unfold forwardProbs
  rw [getD2_attnProbs, sanitize_softmax_entry _ j .ninf hd hfin]
  simp [expExt]

/-- C3 witness: one memory bank, a two-row segment, no padding mask, at
memory column 0. -/
theorem C3_witness :
    ent3 (forwardProbs exP [[[1]], [[0]]] [[[[1]]]] none) 0
      (([[[1]], [[0]]] : T3).length - 1) 0 = some 0 := by
  have hbank1 : ∀ bank ∈ ([[[[1]]]] : List T3), bank.length = 1 := by
    intro bank hb
    rw [List.mem_singleton] at hb
    rw [hb]
    rfl
  have hbh : (0 : ℕ) < batchOf [[[1]], [[0]]] * exP.num_heads := by
    norm_num [batchOf, exP]
  have hlen2 : (((rawScores exP [[[1]], [[0]]] [[[[1]]]]).getD 0 []).getD 1 []).length
      = 2 := by
    rw [rawScores_row_length _ _ _ 0 1 hbh (by norm_num),
      kvSource_length _ _ _ hbank1]
    rfl
  obtain ⟨a, b, hab⟩ := List.length_eq_two.mp hlen2
  have hent : (((maskedScores exP [[[1]], [[0]]] [[[[1]]]] none).getD 0 []).getD
      (([[[1]], [[0]]] : T3).length - 1) [])[1]? = some (EScore.val b) := by
    rw [getD2_maskedScores _ _ _ _ 0 _ hbh]
    show (padRowFn exP.num_heads (usedBanks exP.max_memory_size [[[[1]]]]).length
        none 0 (prePadRow exP (usedBanks exP.max_memory_size [[[[1]]]]).length
          ([[[1]], [[0]]] : T3).length
          (((rawScores exP [[[1]], [[0]]] [[[[1]]]]).getD 0 []).getD 1 []) 1))[1]? =
      some (EScore.val b)
    rw [hab]
    simp [padRowFn, prePadRow, exP]
    decide
  have hle : (usedBanks exP.max_memory_size ([[[[1]]]] : List T3)).length ≤ 1 := by
    decide
  exact C3_summary_never_attends_memory exP [[[1]], [[0]]] [[[[1]]]] none rfl
    hbank1 (by norm_num [usedBanks, exP]) (by simp) 0 hbh ⟨1, b, hle, hent⟩ 0
    (by decide)

lemma mem_iff_getElem?_exists {α : Type} {l : List α} {a : α} :
    a ∈ l ↔ ∃ i : ℕ, l[i]? = some a := by
  constructor
  · intro h
    obtain ⟨i, hi, hg⟩ := List.getElem_of_mem h
    exact ⟨i, by rw [List.getElem?_eq_getElem hi, hg]⟩
  · rintro ⟨i, hi⟩
    exact List.getElem?_mem hi

/-- C4, amended: when the memory bank used as key/value source is empty
and the key padding mask marks every key position of batch row b as
padded, every sanitized attention probability of that batch row is exactly
zero, across all of its heads, query rows and key columns; no NaN value
remains after sanitization. -/
theorem C4_full_padding_zeroes_row (p : AMAttnParams) (x : T3) (banks : List T3)
    (mask : List (List Bool)) (b hh : ℕ)
    (hused : usedBanks p.max_memory_size banks = [])
    (hb : b < batchOf x) (hhlt : hh < p.num_heads)
    (hrowlen : (mask.getD b []).length = x.length - 1)
    (hne : mask.getD b [] ≠ [])
    (hall : ∀ v ∈ mask.getD b [], v = true) :
    ∀ t < x.length, ∀ j < x.length - 1,
      ent3 (forwardProbs p x banks (some mask)) (b * p.num_heads + hh) t j =
        some 0 := by
  intro t ht j hj
  have hH : 0 < p.num_heads := by omega
  have hbh : b * p.num_heads + hh < batchOf x * p.num_heads := by
    have h1 : b * p.num_heads + hh < (b + 1) * p.num_heads := by
      rw [Nat.succ_mul]
      omega
    have h2 : (b + 1) * p.num_heads ≤ batchOf x * p.num_heads :=
      Nat.mul_le_mul_right _ (by omega)
    omega
  have hdiv : (b * p.num_heads + hh) / p.num_heads = b := by
    rw [Nat.add_comm, Nat.add_mul_div_right _ _ hH, Nat.div_eq_of_lt hhlt]
    omega
  have hbm : b < mask.length := by
    by_contra hcon
    push_neg at hcon
    rw [List.getD_eq_getElem?_getD, List.getElem?_eq_none (by omega)] at hne
    exact hne rfl
  have hkvl : (kvSource p x banks).length = x.length - 1 := by
    unfold kvSource
    rw [hused]
    simp
  have hrl : (((rawScores p x banks).getD (b * p.num_heads + hh) []).getD t []).length
      = x.length - 1 := by
    rw [rawScores_row_length _ _ _ _ t hbh ht, hkvl]
  -- the padding mask is active
  have hany : mask.any (fun r => r.any id) = true := by
    rw [List.any_eq_true]
    refine ⟨mask.getD b [], ?_, ?_⟩
    · rw [List.getD_eq_getElem?_getD, List.getElem?_eq_getElem hbm]
      exact List.getElem_mem _
    · rw [List.any_eq_true]
      obtain ⟨v, hv⟩ := List.exists_mem_of_ne_nil _ hne
      exact ⟨v, hv, by rw [hall v hv]; rfl⟩
  -- every expanded mask entry of this batch row is true
  have hmaskat : ∀ j' < x.length - 1,
      expandedMaskAt 0 mask ((b * p.num_heads + hh) / p.num_heads) j' = true := by
    intro j' hj'
    unfold expandedMaskAt
    rw [if_neg (by omega), hdiv]
    apply hall
    rw [Nat.sub_zero,
      List.getD_eq_getElem?_getD (mask.getD b []) j' false,
      List.getElem?_eq_getElem (show j' < (mask.getD b []).length by omega)]
    exact List.getElem_mem _
  -- the final masked row is negative infinity everywhere
  set rowF := ((maskedScores p x banks (some mask)).getD (b * p.num_heads + hh) []).getD t []
    with hrowF
  have hFdef := getD2_maskedScores p x banks (some mask) (b * p.num_heads + hh) t hbh
  rw [hused, List.length_nil] at hFdef
  have hFlen : rowF.length = x.length - 1 := by
    rw [hrowF, hFdef]
    unfold padRowFn
    dsimp only
    rw [if_pos hany, List.length_mapIdx, prePadRow_length, hrl]
  have hallninf : ∀ e ∈ rowF, e = .ninf := by
    intro e he
    obtain ⟨i, hi⟩ := mem_iff_getElem?_exists.mp he
    have hilt : i < rowF.length := by
      by_contra hcon
      push_neg at hcon
      rw [List.getElem?_eq_none (by omega)] at hi
      exact Option.noConfusion hi
    have : rowF[i]? = some .ninf := by
      rw [hrowF, hFdef]
      unfold padRowFn
      dsimp only
      rw [if_pos hany, List.getElem?_mapIdx]
      have hip : i < (prePadRow p 0 x.length
          (((rawScores p x banks).getD (b * p.num_heads + hh) []).getD t []) t).length := by
        rw [prePadRow_length, hrl]
        rw [hrowF, hFdef] at hilt
        unfold padRowFn at hilt
        dsimp only at hilt
        rw [if_pos hany, List.length_mapIdx, prePadRow_length, hrl] at hilt
        exact hilt
      rw [List.getElem?_eq_getElem hip]
      have := hmaskat i (by rw [prePadRow_length, hrl] at hip; exact hip)
      simp [this]
    rw [hi] at this
    exact Option.some.inj this
  -- softmax denominator of the row is zero, all probabilities sanitize to 0
  have hd0 : softmaxDenom rowF = 0 := by
    unfold softmaxDenom
    apply List.sum_eq_zero
    intro y hy
    obtain ⟨e, he, hey⟩ := List.mem_map.mp hy
    rw [← hey, hallninf e he]
    rfl
  show (((forwardProbs p x banks (some mask)).getD (b * p.num_heads + hh) []).getD t [])[j]? =
    some 0
  unfold forwardProbs
  rw [getD2_attnProbs]
  unfold softmaxRowRaw sanitizeRow
  rw [if_pos hd0, List.map_map, List.getElem?_map,
    List.getElem?_eq_getElem (by rw [← hrowF] at *; omega)]
  rfl

/-- C4 counterexample: with a non-empty memory bank, a fully padded batch
row still receives probability one on the memory column, because the
expanded mask never marks memory-bank columns; the probabilities of the
row are not all zero as the claim states. -/
theorem C4_counterexample :
    (∀ v ∈ ([[true]] : List (List Bool)).getD 0 [], v = true) ∧
    ent3 (forwardProbs exP [[[1]], [[0]]] [[[[1]]]] (some [[true]])) 0 0 0 =
      some 1 ∧
    ent3 (forwardProbs exP [[[1]], [[0]]] [[[[1]]]] (some [[true]])) 0 0 0 ≠
      some 0 := by
  have hbh : (0 : ℕ) < batchOf [[[1]], [[0]]] * exP.num_heads := by
    norm_num [batchOf, exP]
  have hbank1 : ∀ bank ∈ ([[[[1]]]] : List T3), bank.length = 1 := by
    intro bank hb
    rw [List.mem_singleton] at hb
    rw [hb]
    rfl
  have hlen2 : (((rawScores exP [[[1]], [[0]]] [[[[1]]]]).getD 0 []).getD 0 []).length
      = 2 := by
    rw [rawScores_row_length _ _ _ 0 0 hbh (by norm_num),
      kvSource_length _ _ _ hbank1]
    rfl
  obtain ⟨a, b, hab⟩ := List.length_eq_two.mp hlen2
  have hrowF : ((maskedScores exP [[[1]], [[0]]] [[[[1]]]] (some [[true]])).getD 0
      []).getD 0 [] = [EScore.val a, EScore.ninf] := by
    rw [getD2_maskedScores _ _ _ _ 0 0 hbh]
    show padRowFn exP.num_heads (usedBanks exP.max_memory_size [[[[1]]]]).length
        (some [[true]]) 0
        (prePadRow exP (usedBanks exP.max_memory_size [[[[1]]]]).length
          ([[[1]], [[0]]] : T3).length
          (((rawScores exP [[[1]], [[0]]] [[[[1]]]]).getD 0 []).getD 0 []) 0) =
      [EScore.val a, EScore.ninf]
    rw [hab]
    simp [padRowFn, prePadRow, exP, expandedMaskAt]
    decide
  have hd : ¬ softmaxDenom [EScore.val a, EScore.ninf] = 0 := by
    simp [softmaxDenom, expExt, Real.exp_ne_zero]
  have hone : ent3 (forwardProbs exP [[[1]], [[0]]] [[[[1]]]] (some [[true]]))
      0 0 0 = some 1 := by
    show (((forwardProbs exP [[[1]], [[0]]] [[[[1]]]] (some [[true]])).getD 0
      []).getD 0 [])[0]? = some 1
    unfold forwardProbs
    rw [getD2_attnProbs, hrowF, sanitize_softmax_entry _ 0 (EScore.val a) hd rfl]
    have : expExt (EScore.val a) / softmaxDenom [EScore.val a, EScore.ninf] = 1 := by
      simp [softmaxDenom, expExt]
    rw [this]
  refine ⟨by decide, hone, ?_⟩
  rw [hone]
  intro hcon
  have : (1 : ℝ) = 0 := Option.some.inj hcon
  norm_num at this

/-- C4 witness for the amended statement: empty memory bank, one batch
row, fully padded, at query row 0 and key column 0. -/
theorem C4_witness :
    ent3 (forwardProbs exP [[[1]], [[0]]] [] (some [[true]])) (0 * exP.num_heads + 0)
      0 0 = some 0 := by
  exact C4_full_padding_zeroes_row exP [[[1]], [[0]]] [] [[true]] 0 0 rfl
    (by norm_num [batchOf]) (by norm_num [exP]) (by decide) (by decide) (by decide)
    0 (by norm_num) 0 (by norm_num)

lemma attention_suppression_length (w : List (List (List EScore))) (s : ℝ) :
    (attention_suppression w s).length = w.length := by
  simp [attention_suppression]

lemma memOnMemMask_length (m : ℕ) (w : List (List (List EScore))) :
    (memOnMemMask m w).length = w.length := by
  simp [memOnMemMask]

lemma toES_length (w : List (List (List ℝ))) : (toES w).length = w.length := by
  simp [toES]

lemma maybePad_length (H m : ℕ) (kpm : Option (List (List Bool)))
    (w : List (List (List EScore))) : (maybePad H m kpm w).length = w.length := by
  unfold maybePad
  cases kpm with
  | none => rfl
  | some mask =>
    dsimp only
    split
    · rw [applyPaddingMask, List.length_mapIdx]
    · rfl

lemma maskedScores_length (p : AMAttnParams) (x : T3) (banks : List T3)
    (kpm : Option (List (List Bool))) :
    (maskedScores p x banks kpm).length = batchOf x * p.num_heads := by
  unfold maskedScores
  rw [maybePad_length]
  cases hstd : p.std_scale with
  | none =>
    dsimp only
    split
    · rw [memOnMemMask_length, toES_length, rawScores_length]
    · rw [toES_length, rawScores_length]
  | some s =>
    dsimp only
    rw [attention_suppression_length]
    split
    · rw [memOnMemMask_length, toES_length, rawScores_length]
    · rw [toES_length, rawScores_length]

lemma maybePad_mtx_length (H m : ℕ) (kpm : Option (List (List Bool)))
    (w : List (List (List EScore))) (bh : ℕ) :
    ((maybePad H m kpm w).getD bh []).length = (w.getD bh []).length := by
  unfold maybePad
  cases kpm with
  | none => rfl
  | some mask =>
    dsimp only
    split
    · unfold applyPaddingMask
      rw [getD_mapIdx_nil (fun i => rfl), List.length_map]
    · rfl

lemma suppr_mtx_length (w : List (List (List EScore))) (s : ℝ) (bh : ℕ) :
    ((attention_suppression w s).getD bh []).length = (w.getD bh []).length := by
  unfold attention_suppression
  rw [getD_map_nil rfl, List.length_map]

lemma memOnMem_mtx_length (m : ℕ) (w : List (List (List EScore))) (bh : ℕ) :
    ((memOnMemMask m w).getD bh []).length = (w.getD bh []).length := by
  unfold memOnMemMask
  rw [getD_map_nil rfl]
  unfold maskSummaryRow
  rw [List.length_mapIdx]

lemma toES_mtx_length (w : List (List (List ℝ))) (bh : ℕ) :
    ((toES w).getD bh []).length = (w.getD bh []).length := by
  unfold toES
  rw [getD_map_nil rfl, List.length_map]

lemma maskedScores_mtx_length (p : AMAttnParams) (x : T3) (banks : List T3)
    (kpm : Option (List (List Bool))) (bh : ℕ)
    (hbh : bh < batchOf x * p.num_heads) :
    ((maskedScores p x banks kpm).getD bh []).length = x.length := by
  unfold maskedScores
  rw [maybePad_mtx_length]
  cases hstd : p.std_scale with
  | none =>
    dsimp only
    split
    · rw [memOnMem_mtx_length, toES_mtx_length, rawScores_mtx_length _ _ _ _ hbh]
    · rw [toES_mtx_length, rawScores_mtx_length _ _ _ _ hbh]
  | some s =>
    dsimp only
    rw [suppr_mtx_length]
    split
    · rw [memOnMem_mtx_length, toES_mtx_length, rawScores_mtx_length _ _ _ _ hbh]
    · rw [toES_mtx_length, rawScores_mtx_length _ _ _ _ hbh]

lemma maskedScores_row_length (p : AMAttnParams) (x : T3) (banks : List T3)
    (kpm : Option (List (List Bool))) (bh t : ℕ)
    (hbh : bh < batchOf x * p.num_heads) (ht : t < x.length) :
    (((maskedScores p x banks kpm).getD bh []).getD t []).length =
      (kvSource p x banks).length := by
  rw [getD2_maskedScores _ _ _ _ _ _ hbh, padRowFn_length, prePadRow_length,
    rawScores_row_length _ _ _ _ _ hbh ht]

lemma mem_zipWith {α β γ : Type} {f : α → β → γ} {l1 : List α} {l2 : List β}
    {c : γ} (h : c ∈ List.zipWith f l1 l2) : ∃ a ∈ l1, ∃ b ∈ l2, c = f a b := by
  induction l1 generalizing l2 with
  | nil => simp at h
  | cons a l ih =>
    cases l2 with
    | nil => simp at h
    | cons b m =>
      rw [List.zipWith_cons_cons, List.mem_cons] at h
      rcases h with h | h
      · exact ⟨a, by simp, b, by simp, h⟩
      · obtain ⟨a2, ha, b2, hb, hc⟩ := ih h
        exact ⟨a2, by simp [ha], b2, by simp [hb], hc⟩

lemma foldr_addVec_length (D : ℕ) (l : List Vec)
    (h : ∀ v ∈ l, v.length = D) :
    (l.foldr addVec (List.replicate D 0)).length = D := by
  induction l with
  | nil => simp
  | cons a tl ih =>
    rw [List.foldr_cons]
    have hlen : ∀ u v : Vec, (addVec u v).length = min u.length v.length := by
      intro u v
      simp [addVec]
    rw [hlen, h a (by simp), ih (fun v hv => h v (by simp [hv])), Nat.min_self]

lemma weightedSum_length (D : ℕ) (ps : List ℝ) (vs : List Vec)
    (h : ∀ v ∈ vs, v.length = D) : (weightedSum D ps vs).length = D := by
  unfold weightedSum
  apply foldr_addVec_length
  intro v hv
  obtain ⟨a, _, u, hu, hva⟩ := mem_zipWith hv
  rw [hva, List.length_map]
  exact h u hu

lemma attnProbs_length (w : List (List (List EScore))) :
    (attnProbs w).length = w.length := by
  simp [attnProbs]

lemma attnProbs_mtx_length (w : List (List (List EScore))) (bh : ℕ) :
    ((attnProbs w).getD bh []).length = (w.getD bh []).length := by
  unfold attnProbs
  rw [getD_map_nil rfl, List.length_map]

lemma bmmAV_getD (D : ℕ) (probs : List (List (List ℝ))) (v : List (List Vec))
    (bh : ℕ) (hp : bh < probs.length) (hv : bh < v.length) :
    (bmmAV D probs v).getD bh [] =
      (probs.getD bh []).map (fun prow => weightedSum D prow (v.getD bh [])) := by
  unfold bmmAV
  rw [List.getD_eq_getElem?_getD, List.getElem?_zipWith,
    List.getElem?_eq_getElem hp, List.getElem?_eq_getElem hv]
  simp [List.getD_eq_getElem?_getD, List.getElem?_eq_getElem hp,
    List.getElem?_eq_getElem hv]

lemma kv_rows_length (p : AMAttnParams) (x : T3) (banks : List T3)
    (hxrows : ∀ tb ∈ x, tb.length = batchOf x)
    (hbankrows : ∀ bank ∈ banks, ∀ tb ∈ bank, tb.length = batchOf x) :
    ∀ tb ∈ kvSource p x banks, tb.length = batchOf x := by
  intro tb htb
  unfold kvSource at htb
  rcases List.mem_append.mp htb with h | h
  · obtain ⟨bank, hbank, htb2⟩ := List.mem_flatten.mp h
    exact hbankrows bank (usedBanks_subset _ _ bank hbank) tb htb2
  · exact hxrows tb (List.dropLast_subset x h)

lemma reshapeHeads_value_rows (B H D : ℕ) (W : Mat) (b : Vec) (kv : T3)
    (hW : W.length = H * D) (hb : b.length = H * D)
    (hrows : ∀ tb ∈ kv, tb.length = B) (bh : ℕ) (hbh : bh < B * H) :
    ∀ u ∈ (reshapeHeads B H D (proj3 W b kv)).getD bh [], u.length = D := by
  rw [reshapeHeads_getD _ _ _ _ _ hbh]
  intro u hu
  obtain ⟨tb, htb, hueq⟩ := List.mem_map.mp hu
  obtain ⟨tb0, htb0, htbeq⟩ := List.mem_map.mp htb
  have hH : 0 < H := by
    rcases Nat.eq_zero_or_pos H with h | h
    · subst h
      rw [Nat.mul_zero] at hbh
      omega
    · exact h
  have hdiv : bh / H < B := by
    rw [Nat.div_lt_iff_lt_mul hH]
    omega
  have hgd : (tb0.map (affine W b)).getD (bh / H) [] =
      affine W b (tb0.getD (bh / H) []) :=
    getD_map_of_lt _ _ _ (by rw [hrows tb0 htb0]; omega) [] []
  rw [← hueq, ← htbeq]
  show (headSlice D (bh % H) ((tb0.map (affine W b)).getD (bh / H) [])).length = D
  rw [hgd]
  unfold headSlice
  rw [List.length_take, List.length_drop, affine_length, hW, hb, Nat.min_self]
  have hmod : bh % H < H := Nat.mod_lt _ hH
  have hle : (bh % H + 1) * D ≤ H * D := Nat.mul_le_mul_right _ (by omega)
  rw [Nat.succ_mul] at hle
  omega

/-- C7: for a well-shaped input of segment length L, batch B, H heads of
head dimension D, the shape assertions of forward hold: the masked score
tensor has shape (B*H, L+1, L+m) with m the used memory-bank length, the
aggregated attention has shape (B*H, L+1, D), and the returned segment
output has shape (L, B, H*D), regardless of the memory-bank length. -/
theorem C7_shape_assertions (p : AMAttnParams) (x : T3) (banks : List T3)
    (kpm : Option (List (List Bool))) (L : ℕ)
    (hx : x.length = L + 1)
    (hxrows : ∀ tb ∈ x, tb.length = batchOf x)
    (hbank1 : ∀ bank ∈ banks, bank.length = 1)
    (hbankrows : ∀ bank ∈ banks, ∀ tb ∈ bank, tb.length = batchOf x)
    (hWv : p.Wv.length = p.num_heads * p.head_dim)
    (hbv : p.bv.length = p.num_heads * p.head_dim)
    (hWo : p.Wo.length = p.num_heads * p.head_dim)
    (hbo : p.bo.length = p.num_heads * p.head_dim) :
    ((maskedScores p x banks kpm).length = batchOf x * p.num_heads ∧
      ∀ bh < batchOf x * p.num_heads,
        ((maskedScores p x banks kpm).getD bh []).length = L + 1 ∧
        ∀ t < L + 1,
          (((maskedScores p x banks kpm).getD bh []).getD t []).length =
            L + (usedBanks p.max_memory_size banks).length) ∧
    ((bmmAV p.head_dim (forwardProbs p x banks kpm)
        (reshapeHeads (batchOf x) p.num_heads p.head_dim
          (proj3 p.Wv p.bv (kvSource p x banks)))).length =
      batchOf x * p.num_heads ∧
      ∀ bh < batchOf x * p.num_heads,
        ((bmmAV p.head_dim (forwardProbs p x banks kpm)
          (reshapeHeads (batchOf x) p.num_heads p.head_dim
            (proj3 p.Wv p.bv (kvSource p x banks)))).getD bh []).length = L + 1 ∧
        ∀ row ∈ (bmmAV p.head_dim (forwardProbs p x banks kpm)
          (reshapeHeads (batchOf x) p.num_heads p.head_dim
            (proj3 p.Wv p.bv (kvSource p x banks)))).getD bh [],
          row.length = p.head_dim) ∧
    ((forwardAttn p x banks kpm).1.length = L ∧
      ∀ row ∈ (forwardAttn p x banks kpm).1, row.length = batchOf x ∧
        ∀ v ∈ row, v.length = p.num_heads * p.head_dim) := by
  have hkvl : (kvSource p x banks).length =
      (usedBanks p.max_memory_size banks).length + L := by
    rw [kvSource_length p x banks hbank1, hx]
    omega
  refine ⟨⟨maskedScores_length p x banks kpm, ?_⟩, ⟨?_, ?_⟩, ?_, ?_⟩
  · intro bh hbh
    refine ⟨by rw [maskedScores_mtx_length _ _ _ _ _ hbh, hx], ?_⟩
    intro t ht
    rw [maskedScores_row_length _ _ _ _ _ _ hbh (by omega), hkvl]
    omega
  · unfold bmmAV forwardProbs
    rw [List.length_zipWith, attnProbs_length, maskedScores_length,
      reshapeHeads_length, Nat.min_self]
  · intro bh hbh
    have hp : bh < (forwardProbs p x banks kpm).length := by
      rw [forwardProbs, attnProbs_length, maskedScores_length]
      omega
    have hv : bh < (reshapeHeads (batchOf x) p.num_heads p.head_dim
        (proj3 p.Wv p.bv (kvSource p x banks))).length := by
      rw [reshapeHeads_length]
      omega
    rw [bmmAV_getD _ _ _ _ hp hv]
    constructor
    · rw [List.length_map]
      show ((attnProbs (maskedScores p x banks kpm)).getD bh []).length = L + 1
      rw [attnProbs_mtx_length, maskedScores_mtx_length _ _ _ _ _ hbh, hx]
    · intro row hrow
      obtain ⟨prow, _, hpr⟩ := List.mem_map.mp hrow
      rw [← hpr]
      exact weightedSum_length _ _ _
        (reshapeHeads_value_rows _ _ _ _ _ _ hWv hbv
          (kv_rows_length p x banks hxrows hbankrows) bh hbh)
  · show (proj3 p.Wo p.bo (mergeHeads (batchOf x) p.num_heads x.length
      (bmmAV p.head_dim (forwardProbs p x banks kpm)
        (reshapeHeads (batchOf x) p.num_heads p.head_dim
          (proj3 p.Wv p.bv (kvSource p x banks)))))).dropLast.length = L
    rw [List.length_dropLast]
    simp only [proj3, List.length_map]
    rw [mergeHeads_length, hx]
    omega
  · intro row hrow
    have hrow2 : row ∈ (proj3 p.Wo p.bo (mergeHeads (batchOf x) p.num_heads x.length
        (bmmAV p.head_dim (forwardProbs p x banks kpm)
          (reshapeHeads (batchOf x) p.num_heads p.head_dim
            (proj3 p.Wv p.bv (kvSource p x banks)))))) :=
      List.dropLast_subset _ hrow
    obtain ⟨tb, htb, hroweq⟩ := List.mem_map.mp hrow2
    obtain ⟨t, _, htbeq⟩ := List.mem_map.mp htb
    constructor
    · rw [← hroweq, List.length_map, ← htbeq, List.length_map, List.length_range]
    · intro v hv
      rw [← hroweq] at hv
      obtain ⟨u, _, hveq⟩ := List.mem_map.mp hv
      rw [← hveq, affine_length, hWo, hbo, Nat.min_self]

/-- C7 witness at a concrete one-head instance with one memory bank. -/
theorem C7_witness :
    ((maskedScores exP [[[1]], [[0]]] [[[[1]]]] none).length =
        batchOf [[[1]], [[0]]] * exP.num_heads ∧
      ∀ bh < batchOf [[[1]], [[0]]] * exP.num_heads,
        ((maskedScores exP [[[1]], [[0]]] [[[[1]]]] none).getD bh []).length = 1 + 1 ∧
        ∀ t < 1 + 1,
          (((maskedScores exP [[[1]], [[0]]] [[[[1]]]] none).getD bh []).getD t []).length =
            1 + (usedBanks exP.max_memory_size [[[[1]]]]).length) ∧
    ((bmmAV exP.head_dim (forwardProbs exP [[[1]], [[0]]] [[[[1]]]] none)
        (reshapeHeads (batchOf [[[1]], [[0]]]) exP.num_heads exP.head_dim
          (proj3 exP.Wv exP.bv (kvSource exP [[[1]], [[0]]] [[[[1]]]])))).length =
      batchOf [[[1]], [[0]]] * exP.num_heads ∧
      ∀ bh < batchOf [[[1]], [[0]]] * exP.num_heads,
        ((bmmAV exP.head_dim (forwardProbs exP [[[1]], [[0]]] [[[[1]]]] none)
          (reshapeHeads (batchOf [[[1]], [[0]]]) exP.num_heads exP.head_dim
            (proj3 exP.Wv exP.bv (kvSource exP [[[1]], [[0]]] [[[[1]]]])))).getD bh []).length
          = 1 + 1 ∧
        ∀ row ∈ (bmmAV exP.head_dim (forwardProbs exP [[[1]], [[0]]] [[[[1]]]] none)
          (reshapeHeads (batchOf [[[1]], [[0]]]) exP.num_heads exP.head_dim
            (proj3 exP.Wv exP.bv (kvSource exP [[[1]], [[0]]] [[[[1]]]])))).getD bh [],
          row.length = exP.head_dim) ∧
    ((forwardAttn exP [[[1]], [[0]]] [[[[1]]]] none).1.length = 1 ∧
      ∀ row ∈ (forwardAttn exP [[[1]], [[0]]] [[[[1]]]] none).1,
        row.length = batchOf [[[1]], [[0]]] ∧
        ∀ v ∈ row, v.length = exP.num_heads * exP.head_dim) := by
  apply C7_shape_assertions exP [[[1]], [[0]]] [[[[1]]]] none 1 rfl
  · intro tb htb
    rcases List.mem_cons.mp htb with h | h
    · rw [h]
      rfl
    · rw [List.mem_singleton] at h
      rw [h]
      rfl
  · intro bank hb
    rw [List.mem_singleton] at hb
    rw [hb]
    rfl
  · intro bank hb tb htb
    rw [List.mem_singleton] at hb
    rw [hb] at htb
    rw [List.mem_singleton] at htb
    rw [htb]
    rfl
  all_goals rfl

/-- Feature dimension read from the shape of the input tensor. -/
def dimOf (x : T3) : ℕ := ((x.getD 0 []).getD 0 []).length

/-- Elementwise addition of two (batch, dim) slices. -/
def addT2 (a c : List Vec) : List Vec := List.zipWith addVec a c

/-- Sum over the time dimension of a (time, batch, dim) tensor. -/
def sumTime : T3 → List Vec
  | [] => []
  | h :: tl => tl.foldl addT2 h

/-- torch.mean over dim 0: the time sum divided by the number of rows. -/
noncomputable def meanTime (seg : T3) : List Vec :=
  (sumTime seg).map (fun v => v.map (fun r => r / seg.length))

/-- summarize_segment of the layer: mean over time, keepdim. -/
noncomputable def summarize_segment (seg : T3) : T3 := [meanTime seg]

/-- The summary query built by the layer forward: the mean of the core
region when it is non-empty, otherwise a zero (1, batch, dim) tensor. -/
noncomputable def summaryQuery (lc rc : ℕ) (x : T3) : T3 :=
  if (lc : ℤ) < (x.length : ℤ) - (rc : ℤ) then
    summarize_segment ((x.drop lc).take (x.length - rc - lc))
  else [List.replicate (batchOf x) (List.replicate (dimOf x) 0)]

/-- Shape predicate for (batch, dim) slices. -/
def ShapedT2 (B E : ℕ) (m : List Vec) : Prop :=
  m.length = B ∧ ∀ v ∈ m, v.length = E

lemma addT2_shaped (B E : ℕ) (a c : List Vec) (ha : ShapedT2 B E a)
    (hc : ShapedT2 B E c) : ShapedT2 B E (addT2 a c) := by
  obtain ⟨ha1, ha2⟩ := ha
  obtain ⟨hc1, hc2⟩ := hc
  constructor
  · rw [addT2, List.length_zipWith, ha1, hc1, Nat.min_self]
  · intro v hv
    obtain ⟨u, hu, w, hw, hvw⟩ := mem_zipWith hv
    rw [hvw, addVec, List.length_zipWith, ha2 u hu, hc2 w hw, Nat.min_self]

lemma addT2_entry (B E : ℕ) (a c : List Vec) (ha : ShapedT2 B E a)
    (hc : ShapedT2 B E c) (b e : ℕ) (hb : b < B) (he : e < E) :
    ((addT2 a c).getD b []).getD e 0 =
      (a.getD b []).getD e 0 + (c.getD b []).getD e 0 := by
  obtain ⟨ha1, ha2⟩ := ha
  obtain ⟨hc1, hc2⟩ := hc
  have hb1 : b < a.length := by omega
  have hb2 : b < c.length := by omega
  have hrow : (addT2 a c).getD b [] = addVec (a.getD b []) (c.getD b []) := by
    rw [addT2, List.getD_eq_getElem?_getD, List.getElem?_zipWith,
      List.getElem?_eq_getElem hb1, List.getElem?_eq_getElem hb2]
    simp [List.getD_eq_getElem?_getD, List.getElem?_eq_getElem hb1,
      List.getElem?_eq_getElem hb2]
  rw [hrow]
  have he1 : e < (a.getD b []).length := by
    have hmem : a.getD b [] ∈ a := by
      rw [List.getD_eq_getElem?_getD, List.getElem?_eq_getElem hb1]
      exact List.getElem_mem hb1
    rw [ha2 _ hmem]
    omega
  have he2 : e < (c.getD b []).length := by
    have hmem : c.getD b [] ∈ c := by
      rw [List.getD_eq_getElem?_getD, List.getElem?_eq_getElem hb2]
      exact List.getElem_mem hb2
    rw [hc2 _ hmem]
    omega
  rw [List.getD_eq_getElem?_getD (addVec (a.getD b []) (c.getD b [])) e 0,
    List.getD_eq_getElem?_getD (a.getD b []) e 0,
    List.getD_eq_getElem?_getD (c.getD b []) e 0,
    addVec, List.getElem?_zipWith,
    List.getElem?_eq_getElem he1, List.getElem?_eq_getElem he2]
  rfl

lemma foldl_addT2_spec (B E : ℕ) (tl : List (List Vec)) (h : List Vec)
    (hh : ShapedT2 B E h) (htl : ∀ m ∈ tl, ShapedT2 B E m) :
    ShapedT2 B E (tl.foldl addT2 h) ∧
      ∀ b < B, ∀ e < E,
        ((tl.foldl addT2 h).getD b []).getD e 0 =
          (h.getD b []).getD e 0 + (tl.map (fun m => (m.getD b []).getD e 0)).sum := by
  induction tl generalizing h with
  | nil => exact ⟨hh, fun b _ e _ => by simp⟩
  | cons m tl ih =>
    have hm : ShapedT2 B E m := htl m (by simp)
    have hh2 : ShapedT2 B E (addT2 h m) := addT2_shaped B E h m hh hm
    obtain ⟨ihs, ihe⟩ := ih (addT2 h m) hh2 (fun n hn => htl n (by simp [hn]))
    refine ⟨ihs, ?_⟩
    intro b hb e he
    rw [List.foldl_cons, ihe b hb e he, addT2_entry B E h m hh hm b e hb he,
      List.map_cons, List.sum_cons]
    ring

lemma sumTime_entry (B E : ℕ) (seg : T3) (hseg : ∀ m ∈ seg, ShapedT2 B E m)
    (hne : seg ≠ []) :
    ShapedT2 B E (sumTime seg) ∧
      ∀ b < B, ∀ e < E,
        ((sumTime seg).getD b []).getD e 0 =
          (seg.map (fun m => (m.getD b []).getD e 0)).sum := by
  cases seg with
  | nil => exact absurd rfl hne
  | cons h tl =>
    obtain ⟨hs, he⟩ := foldl_addT2_spec B E tl h (hseg h (by simp))
      (fun m hm => hseg m (by simp [hm]))
    exact ⟨hs, fun b hb e hee => by rw [sumTime, he b hb e hee]; simp⟩

/-- C8: for a layer input x of shape (length, batch, dim), when
left_context < length - right_context the appended summary query is the
elementwise mean over the time dimension of the core slice
x[left_context : length - right_context]; otherwise it is a zero tensor of
shape (1, batch, dim). -/
theorem C8_summary_query_is_core_mean (lc rc : ℕ) (x : T3) (B E : ℕ)
    (hB : batchOf x = B) (hE : dimOf x = E)
    (hx : ∀ tb ∈ x, ShapedT2 B E tb) :
    (summaryQuery lc rc x).length = 1 ∧
    (lc + rc < x.length →
      ∀ b < B, ∀ e < E,
        ent3 (summaryQuery lc rc x) 0 b e =
          some ((((x.drop lc).take (x.length - rc - lc)).map
              (fun tb => (tb.getD b []).getD e 0)).sum /
            ((x.length - rc - lc : ℕ) : ℝ))) ∧
    (x.length ≤ lc + rc →
      summaryQuery lc rc x = [List.replicate B (List.replicate E 0)]) := by
  refine ⟨?_, ?_, ?_⟩
  · unfold summaryQuery
    split
    · rfl
    · rfl
  · intro hcore b hb e he
    have hcond : (lc : ℤ) < (x.length : ℤ) - (rc : ℤ) := by omega
    have hslicelen : ((x.drop lc).take (x.length - rc - lc)).length =
        x.length - rc - lc := by
      rw [List.length_take, List.length_drop]
      omega
    have hslicene : (x.drop lc).take (x.length - rc - lc) ≠ [] := by
      intro hcon
      rw [hcon] at hslicelen
      simp at hslicelen
      omega
    have hshape : ∀ m ∈ (x.drop lc).take (x.length - rc - lc), ShapedT2 B E m := by
      intro m hm
      exact hx m (List.drop_subset lc x (List.take_subset _ _ hm))
    obtain ⟨⟨hs1, hs2⟩, hentry⟩ :=
      sumTime_entry B E ((x.drop lc).take (x.length - rc - lc)) hshape hslicene
    unfold summaryQuery
    rw [if_pos hcond]
    unfold summarize_segment ent3
    show ((([meanTime ((x.drop lc).take (x.length - rc - lc))].getD 0
      []).getD b []))[e]? = _
    rw [List.getD_cons_zero]
    unfold meanTime
    have hgb : (sumTime ((x.drop lc).take (x.length - rc - lc))).getD b [] ∈
        sumTime ((x.drop lc).take (x.length - rc - lc)) := by
      rw [List.getD_eq_getElem?_getD, List.getElem?_eq_getElem (by omega)]
      exact List.getElem_mem (by omega)
    rw [getD_map_of_lt _ _ b (by omega) [] []]
    have helen : e < ((sumTime ((x.drop lc).take (x.length - rc - lc))).getD b
        []).length := by
      rw [hs2 _ hgb]
      omega
    rw [List.getElem?_map, List.getElem?_eq_getElem helen, Option.map_some']
    have hval : ((sumTime ((x.drop lc).take (x.length - rc - lc))).getD b [])[e] =
        ((sumTime ((x.drop lc).take (x.length - rc - lc))).getD b []).getD e 0 := by
      rw [List.getD_eq_getElem?_getD
          ((sumTime ((x.drop lc).take (x.length - rc - lc))).getD b []) e 0,
        List.getElem?_eq_getElem helen]
      rfl
    rw [hval, hentry b hb e he, hslicelen]
  · intro hfull
    unfold summaryQuery
    rw [if_neg (by omega), hB, hE]

/-- C8 witness at a two-row input with empty contexts. -/
theorem C8_witness :
    (summaryQuery 0 0 [[[1]], [[2]]]).length = 1 ∧
    (0 + 0 < ([[[1]], [[2]]] : T3).length →
      ∀ b < 1, ∀ e < 1,
        ent3 (summaryQuery 0 0 [[[1]], [[2]]]) 0 b e =
          some ((((([[[1]], [[2]]] : T3).drop 0).take
              (([[[1]], [[2]]] : T3).length - 0 - 0)).map
              (fun tb => (tb.getD b []).getD e 0)).sum /
            ((([[[1]], [[2]]] : T3).length - 0 - 0 : ℕ) : ℝ))) ∧
    (([[[1]], [[2]]] : T3).length ≤ 0 + 0 →
      summaryQuery 0 0 [[[1]], [[2]]] = [List.replicate 1 (List.replicate 1 0)]) := by
  apply C8_summary_query_is_core_mean 0 0 [[[1]], [[2]]] 1 1 rfl rfl
  intro tb htb
  rcases List.mem_cons.mp htb with h | h
  · rw [h]
    exact ⟨rfl, by simp⟩
  · rw [List.mem_singleton] at h
    rw [h]
    exact ⟨rfl, by simp⟩

/-- Per-layer mutable state dictionary. -/
structure LayerState where
  memory_banks : Option (List T3)
  encoder_states : Option T3

/-- A transformer layer as a function from input and state to output and
updated state (the in-place mutation rendered functionally). -/
abbrev LayerFn := T3 → LayerState → T3 × LayerState

/-- Context trimming x[left : -right if right > 0 else None]. -/
def trimCtx {α : Type} (lc rc : ℕ) (x : List α) : List α :=
  if 0 < rc then (x.drop lc).take (x.length - lc - rc) else x.drop lc

/-- The encoder loop over the transformer layers: run each layer on the
current activation with its own state entry, then store the context-trimmed
layer output in that state entry as encoder_states.  State entries beyond
the layer count are left untouched. -/
def runLayers (lc rc : ℕ) : List LayerFn → T3 → List LayerState → T3 × List LayerState
  | [], x, ss => (x, ss)
  | _ :: _, x, [] => (x, [])
  | f :: fs, x, s :: ss =>
    let r := f x s
    let s2 : LayerState := { r.2 with encoder_states := some (trimCtx lc rc r.1) }
    let rest := runLayers lc rc fs r.1 ss
    (rest.1, s2 :: rest.2)

/-- Output lengths: per batch row, the count of non-padded positions of the
padding mask restricted to the trimmed region. -/
def lengthsOut (lc rc : ℕ) (mask : List (List Bool)) : List ℕ :=
  mask.map (fun row => ((trimCtx lc rc row).filter (fun b => ! b)).length)

/-- The loop-and-return portion of
AugmentedMemoryConvTransformerEncoder.forward: returns the last state
entry's encoder_states, the trimmed non-padding counts, and the updated
state list. -/
def encoderForward (lc rc : ℕ) (layers : List LayerFn) (x : T3)
    (mask : List (List Bool)) (states : List LayerState) :
    Option T3 × List ℕ × List LayerState :=
  let r := runLayers lc rc layers x states
  ((r.2.getLast?).bind (fun s => s.encoder_states), lengthsOut lc rc mask, r.2)

/-- The successive layer outputs (before trimming) along the loop. -/
def layerOutputs : List LayerFn → T3 → List LayerState → List T3
  | [], _, _ => []
  | _ :: _, _, [] => []
  | f :: fs, x, s :: ss => (f x s).1 :: layerOutputs fs (f x s).1 ss

lemma layerOutputs_length (fs : List LayerFn) (x : T3) (ss : List LayerState)
    (hlen : ss.length = fs.length) : (layerOutputs fs x ss).length = fs.length := by
  induction fs generalizing x ss with
  | nil => rfl
  | cons f fs ih =>
    cases ss with
    | nil => simp at hlen
    | cons s ss =>
      rw [layerOutputs, List.length_cons, List.length_cons,
        ih (f x s).1 ss (by simpa using hlen)]

lemma runLayers_spec (lc rc : ℕ) (fs : List LayerFn) (x : T3)
    (ss : List LayerState) (hlen : ss.length = fs.length) :
    (runLayers lc rc fs x ss).2.length = fs.length ∧
    (∀ i < fs.length,
      ((runLayers lc rc fs x ss).2.getD i
          { memory_banks := none, encoder_states := none }).encoder_states =
        some (trimCtx lc rc ((layerOutputs fs x ss).getD i []))) ∧
    (fs ≠ [] → (runLayers lc rc fs x ss).1 =
      (layerOutputs fs x ss).getD (fs.length - 1) []) := by
  induction fs generalizing x ss with
  | nil =>
    refine ⟨by simpa using hlen, ?_, fun h => absurd rfl h⟩
    intro i hi
    exact absurd hi (by simp)
  | cons f fs ih =>
    cases ss with
    | nil => simp at hlen
    | cons s ss =>
      obtain ⟨ih1, ih2, ih3⟩ := ih (f x s).1 ss (by simpa using hlen)
      refine ⟨?_, ?_, ?_⟩
      · rw [runLayers]
        simpa using ih1
      · intro i hi
        cases i with
        | zero => rfl
        | succ i =>
          rw [runLayers, layerOutputs]
          show ((runLayers lc rc fs (f x s).1 ss).2.getD i _).encoder_states = _
          rw [List.getD_cons_succ]
          exact ih2 i (by simpa using hi)
      · intro _
        rcases Classical.em (fs = []) with hfs | hfs
        · subst hfs
          rfl
        · rw [runLayers, layerOutputs]
          show (runLayers lc rc fs (f x s).1 ss).1 = _
          have hfslen : 0 < fs.length := List.length_pos.mpr hfs
          have hidx : (f :: fs).length - 1 = (fs.length - 1) + 1 := by
            rw [List.length_cons]
            omega
          rw [ih3 hfs, hidx, List.getD_cons_succ]

/-- C9: with one state entry per layer, after the encoder loop each state
entry holds the context-trimmed output of its layer, the returned lengths
are the per-batch counts of non-padded positions of the mask restricted to
the trimmed region, and the first returned value is the last layer's
trimmed encoder_states. -/
theorem C9_encoder_stores_trimmed_outputs (lc rc : ℕ) (layers : List LayerFn)
    (x : T3) (mask : List (List Bool)) (states : List LayerState)
    (hlen : states.length = layers.length) (hne : layers ≠ []) :
    (∀ i < layers.length,
      ((encoderForward lc rc layers x mask states).2.2.getD i
          { memory_banks := none, encoder_states := none }).encoder_states =
        some (trimCtx lc rc ((layerOutputs layers x states).getD i []))) ∧
    (encoderForward lc rc layers x mask states).2.1 =
      mask.map (fun row => (trimCtx lc rc row).countP (fun b => ! b)) ∧
    (encoderForward lc rc layers x mask states).1 =
      some (trimCtx lc rc
        ((layerOutputs layers x states).getD (layers.length - 1) [])) := by
  obtain ⟨h1, h2, h3⟩ := runLayers_spec lc rc layers x states hlen
  refine ⟨h2, ?_, ?_⟩
  · show lengthsOut lc rc mask = _
    unfold lengthsOut
    apply List.map_congr_left
    intro row _
    rw [List.countP_eq_length_filter]
  · show ((runLayers lc rc layers x states).2.getLast?).bind
      (fun s => s.encoder_states) = _
    have hpos : 0 < (runLayers lc rc layers x states).2.length := by
      rw [h1]
      exact List.length_pos.mpr hne
    have hlast : (runLayers lc rc layers x states).2.getLast? =
        some ((runLayers lc rc layers x states).2.getD
          ((runLayers lc rc layers x states).2.length - 1)
          { memory_banks := none, encoder_states := none }) := by
      rw [List.getLast?_eq_getElem?, List.getD_eq_getElem?_getD,
        List.getElem?_eq_getElem (by omega)]
      rfl
    rw [hlast]
    show ((runLayers lc rc layers x states).2.getD _ _).encoder_states = _
    rw [h1]
    exact h2 (layers.length - 1) (by
      have := List.length_pos.mpr hne
      omega)

/-- Identity layer used by the C9 witness. -/
def idLayer : LayerFn := fun x s => (x, s)

/-- C9 witness with one identity layer, one state entry and a two-column
mask. -/
theorem C9_witness :
    (∀ i < [idLayer].length,
      ((encoderForward 0 0 [idLayer] [[[1]]] [[false, true]]
          [{ memory_banks := none, encoder_states := none }]).2.2.getD i
          { memory_banks := none, encoder_states := none }).encoder_states =
        some (trimCtx 0 0 ((layerOutputs [idLayer] [[[1]]]
          [{ memory_banks := none, encoder_states := none }]).getD i []))) ∧
    (encoderForward 0 0 [idLayer] [[[1]]] [[false, true]]
        [{ memory_banks := none, encoder_states := none }]).2.1 =
      [[false, true]].map (fun row => (trimCtx 0 0 row).countP (fun b => ! b)) ∧
    (encoderForward 0 0 [idLayer] [[[1]]] [[false, true]]
        [{ memory_banks := none, encoder_states := none }]).1 =
      some (trimCtx 0 0 ((layerOutputs [idLayer] [[[1]]]
        [{ memory_banks := none, encoder_states := none }]).getD
          ([idLayer].length - 1) [])) := by
  exact C9_encoder_stores_trimmed_outputs 0 0 [idLayer] [[[1]]] [[false, true]]
    [{ memory_banks := none, encoder_states := none }] rfl (by simp)
